import Mathlib

/-!
Shallow embedding of the portfolio-construction logic of `prism_client.py`.

Modelling conventions:
* Python floats (budgets, prices, allocations) are modelled as exact
  rationals `ℚ`; `int(a // p)` on floats is the integer floor `⌊a / p⌋`.
* A Python dict with insertion-order semantics (`final_budget_allocations`)
  is an association list `List (String × ℚ)`: updating an existing key
  rewrites it in place, a new key is appended at the end.
* Python sets are modelled as duplicate-free lists.  Python's set iteration
  order is unspecified; wherever the code iterates a set we pin the order to
  the listing order of the source tables (`RISK_RATED_STOCKS`, …).  No
  theorem below depends on that choice.
* A missing dict key (`investor_data.get(k, d)`) is an `Option` field read
  with `Option.getD`.
* The price map is `String → Option ℚ`; `if not price` in the code treats a
  price of `0` like a missing price (Python truthiness), and the embedding
  does the same.
-/

set_option linter.unusedVariables false

namespace Prism

/-- `SECTOR_MAP` from the source, as an association list in source order. -/
def SECTOR_MAP : List (String × List String) :=
  [("finance", ["JPM", "BAC"]),
   ("real estate", ["PLD", "O"]),
   ("energy", ["XOM", "CVX"]),
   ("transportation", ["UNP", "FDX"]),
   ("tech", ["AAPL", "MSFT"]),
   ("trade", ["WMT", "COST"]),
   ("gardening", ["WMT", "COST"]),
   ("life sciences", ["JNJ", "PFE"]),
   ("crypto", ["COIN", "MSTR"])]

/-- `FALLBACK_TICKERS` from the source (unused by the portfolio builder). -/
def FALLBACK_TICKERS : List String := ["PG", "KO", "JNJ", "XOM", "UNP"]

/-- The three risk-tier keys `"low"`, `"medium"`, `"high"`. -/
inductive RiskLevel
  | low
  | medium
  | high
deriving DecidableEq, Repr

/-- `RISK_RATED_STOCKS` from the source. -/
def RISK_RATED_STOCKS : RiskLevel → List String
  | .low => ["JNJ", "PG", "KO", "O", "WMT", "COST"]
  | .medium => ["AAPL", "MSFT", "JPM", "BAC", "XOM", "CVX", "UNP", "FDX", "PFE", "PLD"]
  | .high => ["COIN", "MSTR"]

/-- The three risk-profile keys `"conservative"`, `"moderate"`, `"aggressive"`. -/
inductive RiskProfile
  | conservative
  | moderate
  | aggressive
deriving DecidableEq, Repr

/-- `BUDGET_ALLOCATIONS` from the source: the fraction of the budget that a
risk profile assigns to each tier. -/
def BUDGET_ALLOCATIONS : RiskProfile → RiskLevel → ℚ
  | .conservative, .low => 7/10
  | .conservative, .medium => 3/10
  | .conservative, .high => 0
  | .moderate, .low => 3/10
  | .moderate, .medium => 6/10
  | .moderate, .high => 1/10
  | .aggressive, .low => 1/10
  | .aggressive, .medium => 1/2
  | .aggressive, .high => 2/5

/-- `get_risk_profile(age, budget)` from the source. -/
def get_risk_profile (age : ℤ) (budget : ℚ) : RiskProfile :=
  if age ≥ 60 ∨ budget < 20000 then .conservative
  else if age ≥ 40 ∨ budget < 75000 then .moderate
  else .aggressive

/-- The `budget_allocations` dict: an insertion-ordered association list. -/
abbrev BudgetAllocations := List (String × ℚ)

/-- `budget_allocations.get(ticker, 0)`. -/
def allocGet (m : BudgetAllocations) (t : String) : ℚ :=
  match m.find? (fun p => decide (p.1 = t)) with
  | some p => p.2
  | none => 0

/-- Whether the dict has the key `t`. -/
def hasKey (m : BudgetAllocations) (t : String) : Bool :=
  m.any (fun p => decide (p.1 = t))

/-- `budget_allocations[ticker] = v`: rewrite an existing key in place, or
append a fresh key at the end (Python dict insertion order). -/
def allocSet (m : BudgetAllocations) (t : String) (v : ℚ) : BudgetAllocations :=
  if hasKey m t then m.map (fun p => if p.1 = t then (p.1, v) else p)
  else m ++ [(t, v)]

/-- `_distribute_budget(budget_allocations, tickers, budget)` from the source:
spread `budget` evenly over `tickers`, adding into any existing allocations. -/
def _distribute_budget (m : BudgetAllocations) (tickers : List String)
    (budget : ℚ) : BudgetAllocations :=
  if tickers.isEmpty then m
  else
    let alloc_per_ticker := budget / tickers.length
    tickers.foldl (fun m ticker => allocSet m ticker (allocGet m ticker + alloc_per_ticker)) m

/-- The `investor_data` dict; `none` models a missing key. -/
structure InvestorData where
  age : Option ℤ := none
  budget : Option ℚ := none
  interests : Option (List String) := none
  avoid_list : Option (List String) := none
deriving DecidableEq, Repr

/-- Python's `str.lower()` on the program's ASCII data, written as a
character-list map so that it evaluates inside the kernel. -/
def strLower (s : String) : String := ⟨s.data.map Char.toLower⟩

/-- Python's `str.upper()` on the program's ASCII data. -/
def strUpper (s : String) : String := ⟨s.data.map Char.toUpper⟩

/-- Step 2 of `build_pool_filling_portfolio`: the final "veto" set.  Each
lower-cased avoid entry that names a sector contributes that sector's
tickers; any other entry is upper-cased and added as a ticker.  (The source
iterates the deduplicated `avoid_set`; we keep the raw list, which has the
same members.) -/
def final_avoid_tickers (avoid_list : List String) : List String :=
  (avoid_list.map strLower).foldl
    (fun acc item =>
      match SECTOR_MAP.find? (fun p => decide (p.1 = item)) with
      | some p => acc ++ p.2
      | none => acc ++ [strUpper item]) []

/-- Step 3 of `build_pool_filling_portfolio`: tickers of every sector named
by a lower-cased interest entry. -/
def interest_tickers (interests : List String) : List String :=
  SECTOR_MAP.foldl
    (fun acc p =>
      if (interests.map strLower).contains p.1 then acc ++ p.2 else acc) []

/-- The dollar budget of one tier: `budget * alloc_pcts[level]`. -/
def risk_budget (budget : ℚ) (profile : RiskProfile) (level : RiskLevel) : ℚ :=
  budget * BUDGET_ALLOCATIONS profile level

/-- The candidate pool of a tier: the tier's stocks that match an interest
and are not vetoed; if that is empty, all non-vetoed stocks of the tier. -/
def stocks_to_buy (interest_ts avoid_ts : List String) (level : RiskLevel) :
    List String :=
  let first := (RISK_RATED_STOCKS level).filter
    (fun t => interest_ts.contains t && !(avoid_ts.contains t))
  if first.isEmpty then
    (RISK_RATED_STOCKS level).filter (fun t => !(avoid_ts.contains t))
  else first

/-- One iteration of the pool-filling loop: skip the tier when its budget is
not positive or its candidate pool is empty, otherwise distribute the tier
budget over the pool. -/
def process_level (interest_ts avoid_ts : List String)
    (risk_budgets : RiskLevel → ℚ) (m : BudgetAllocations) (level : RiskLevel) :
    BudgetAllocations :=
  let budget_for_level := risk_budgets level
  if budget_for_level ≤ 0 then m
  else
    let s := stocks_to_buy interest_ts avoid_ts level
    if s.isEmpty then m
    else _distribute_budget m s budget_for_level

/-- Step 5 of `build_pool_filling_portfolio`: the per-ticker dollar
allocations accumulated over the tiers, processed low, medium, high. -/
def final_budget_allocations (budget : ℚ) (profile : RiskProfile)
    (interest_ts avoid_ts : List String) : BudgetAllocations :=
  [RiskLevel.low, RiskLevel.medium, RiskLevel.high].foldl
    (process_level interest_ts avoid_ts (risk_budget budget profile)) []

/-- One `{"ticker": …, "quantity": …}` entry of the final portfolio. -/
structure PortfolioEntry where
  ticker : String
  quantity : ℤ
deriving DecidableEq, Repr

/-- Step 6 of `build_pool_filling_portfolio`, for one dict item: no entry
when the price is missing or `0` (falsy), when the allocation is below the
price, or when the floored share count is not positive. -/
def convert_entry (prices : String → Option ℚ) (p : String × ℚ) :
    Option PortfolioEntry :=
  match prices p.1 with
  | none => none
  | some price =>
    if price = 0 then none
    else if p.2 ≥ price then
      let quantity := ⌊p.2 / price⌋
      if quantity > 0 then some ⟨p.1, quantity⟩ else none
    else none

/-- Step 6 of `build_pool_filling_portfolio`: convert the allocations, in
dict order, into portfolio entries. -/
def convert_allocations (m : BudgetAllocations) (prices : String → Option ℚ) :
    List PortfolioEntry :=
  m.filterMap (convert_entry prices)

/-- Step 7 of `build_pool_filling_portfolio`: buy one share of the first
low-tier stock that is not vetoed, has a truthy price, and costs no more
than the whole budget. -/
def emergency_fallback (avoid_ts : List String) (prices : String → Option ℚ)
    (budget : ℚ) : List PortfolioEntry :=
  match (RISK_RATED_STOCKS .low).find?
      (fun t => !(avoid_ts.contains t) &&
        (match prices t with
         | some p => decide (p ≠ 0) && decide (budget ≥ p)
         | none => false)) with
  | some t => [⟨t, 1⟩]
  | none => []

/-- `build_pool_filling_portfolio(investor_data, prices)` from the source. -/
def build_pool_filling_portfolio (investor_data : InvestorData)
    (prices : String → Option ℚ) : List PortfolioEntry :=
  let budget := investor_data.budget.getD 10000
  let interests := investor_data.interests.getD []
  let avoid_list := investor_data.avoid_list.getD []
  let age := investor_data.age.getD 40
  let risk_profile := get_risk_profile age budget
  let avoid_ts := final_avoid_tickers avoid_list
  let interest_ts := interest_tickers interests
  let allocations := final_budget_allocations budget risk_profile interest_ts avoid_ts
  let final_portfolio := convert_allocations allocations prices
  if final_portfolio.isEmpty then emergency_fallback avoid_ts prices budget
  else final_portfolio

/-- Outcome of `send_portfolio`: either the duplicate-ticker guard rejects
the submission before any network activity, or the HTTP POST is issued with
the given payload (the network call itself is external I/O, modelled as
data). -/
inductive SendOutcome
  | rejected (msg : String)
  | posted (payload : List (String × ℤ))
deriving DecidableEq, Repr

/-- `send_portfolio(weighted_stocks)` from the source, up to the point where
the request leaves the process: `len(set(tickers)) != len(tickers)` aborts
with a failure result. -/
def send_portfolio (weighted_stocks : List (String × ℤ)) : SendOutcome :=
  let tickers := weighted_stocks.map Prod.fst
  if tickers.dedup.length ≠ tickers.length then
    .rejected "Duplicate tickers in submission"
  else .posted weighted_stocks

/-! ### Dictionary lemmas -/

/-- The keys of the allocation dict, in insertion order. -/
def allocKeys (m : BudgetAllocations) : List String := m.map Prod.fst

theorem allocKeys_nil : allocKeys [] = [] := rfl

theorem allocGet_nil (t : String) : allocGet [] t = 0 := rfl

theorem hasKey_iff {m : BudgetAllocations} {t : String} :
    hasKey m t = true ↔ t ∈ allocKeys m := by
  simp [hasKey, allocKeys, List.any_eq_true, List.mem_map]

theorem allocGet_eq_of_find? {m : BudgetAllocations} {t : String} {p : String × ℚ}
    (h : m.find? (fun q => decide (q.1 = t)) = some p) : allocGet m t = p.2 := by
  simp [allocGet, h]

theorem allocGet_of_not_hasKey {m : BudgetAllocations} {t : String}
    (h : ¬ hasKey m t = true) : allocGet m t = 0 := by
  have hfind : m.find? (fun q => decide (q.1 = t)) = none := by
    rw [List.find?_eq_none]
    intro q hq hqt
    exact h (hasKey_iff.mpr (List.mem_map.mpr ⟨q, hq, by simpa using hqt⟩))
  simp [allocGet, hfind]

theorem hasKey_of_allocGet_ne {m : BudgetAllocations} {t : String}
    (h : allocGet m t ≠ 0) : t ∈ allocKeys m := by
  by_cases hk : hasKey m t = true
  · exact hasKey_iff.mp hk
  · exact absurd (allocGet_of_not_hasKey hk) h

theorem mem_of_hasKey {m : BudgetAllocations} {t : String}
    (h : t ∈ allocKeys m) : (t, allocGet m t) ∈ m := by
  have hsome : (m.find? (fun q => decide (q.1 = t))).isSome := by
    rw [List.find?_isSome]
    obtain ⟨p, hp, rfl⟩ := List.mem_map.mp h
    exact ⟨p, hp, by simp⟩
  obtain ⟨p, hp⟩ := Option.isSome_iff_exists.mp hsome
  have hmem := List.mem_of_find?_eq_some hp
  have hkey : p.1 = t := by simpa using List.find?_some hp
  have : allocGet m t = p.2 := allocGet_eq_of_find? hp
  rw [this]
  subst hkey
  exact hmem

/-- With duplicate-free keys, every entry of the dict is the one `allocGet`
reads. -/
theorem allocGet_eq_of_mem {m : BudgetAllocations} {t : String} {a : ℚ}
    (hnd : (allocKeys m).Nodup) (h : (t, a) ∈ m) : allocGet m t = a := by
  induction m with
  | nil => cases h
  | cons q m ih =>
    rcases List.mem_cons.mp h with rfl | hmem
    · simp [allocGet, List.find?]
    · have hnd' : (allocKeys m).Nodup := (List.nodup_cons.mp hnd).2
      have hne : q.1 ≠ t := by
        intro hq
        exact (List.nodup_cons.mp hnd).1 (hq ▸ List.mem_map.mpr ⟨(t, a), hmem, rfl⟩)
      have : allocGet (q :: m) t = allocGet m t := by
        simp [allocGet, List.find?, hne]
      rw [this]
      exact ih hnd' hmem

theorem fst_allocSet_update (t : String) (v : ℚ) (p : String × ℚ) :
    (if p.1 = t then (p.1, v) else p).1 = p.1 := by
  split <;> rfl

theorem allocGet_allocSet (m : BudgetAllocations) (t : String) (v : ℚ) (u : String) :
    allocGet (allocSet m t v) u = if u = t then v else allocGet m u := by
  unfold allocSet
  by_cases hk : hasKey m t = true
  · rw [if_pos hk]
    unfold allocGet
    rw [List.find?_map]
    have hpred : ((fun q : String × ℚ => decide (q.1 = u)) ∘
        (fun p : String × ℚ => if p.1 = t then (p.1, v) else p)) =
        (fun q : String × ℚ => decide (q.1 = u)) := by
      funext p
      simp only [Function.comp_apply, fst_allocSet_update]
    rw [hpred]
    by_cases hut : u = t
    · subst hut
      have hsome : (m.find? (fun q => decide (q.1 = u))).isSome := by
        rw [List.find?_isSome]
        obtain ⟨p, hp, rfl⟩ := List.mem_map.mp (hasKey_iff.mp hk)
        exact ⟨p, hp, by simp⟩
      obtain ⟨p, hp⟩ := Option.isSome_iff_exists.mp hsome
      have hkey : p.1 = u := by simpa using List.find?_some hp
      simp [hp, hkey]
    · cases hfind : m.find? (fun q => decide (q.1 = u)) with
      | none => simp [hfind, hut]
      | some p =>
        have hkey : p.1 = u := by simpa using List.find?_some hfind
        have : ¬ p.1 = t := by rw [hkey]; exact hut
        simp [hfind, this, hut]
  · rw [if_neg hk]
    unfold allocGet
    rw [List.find?_append]
    by_cases hut : u = t
    · subst hut
      have hfind : m.find? (fun q => decide (q.1 = u)) = none := by
        rw [List.find?_eq_none]
        intro q hq hqu
        exact hk (hasKey_iff.mpr (List.mem_map.mpr ⟨q, hq, by simpa using hqu⟩))
      simp [hfind, List.find?]
    · cases hfind : m.find? (fun q => decide (q.1 = u)) with
      | none => simp [hfind, List.find?, Ne.symm, hut]
      | some p => simp [hfind, hut]

theorem allocKeys_allocSet (m : BudgetAllocations) (t : String) (v : ℚ) :
    allocKeys (allocSet m t v) =
      if hasKey m t = true then allocKeys m else allocKeys m ++ [t] := by
  unfold allocSet
  split
  · simp only [allocKeys, List.map_map]
    congr 1
    funext p
    exact fst_allocSet_update t v p
  · simp [allocKeys]

theorem mem_allocKeys_allocSet {m : BudgetAllocations} {t : String} {v : ℚ} {u : String} :
    u ∈ allocKeys (allocSet m t v) ↔ u ∈ allocKeys m ∨ u = t := by
  rw [allocKeys_allocSet]
  split
  · rename_i hk
    constructor
    · exact Or.inl
    · rintro (h | rfl)
      · exact h
      · exact hasKey_iff.mp hk
  · simp

theorem nodup_allocKeys_allocSet {m : BudgetAllocations} {t : String} {v : ℚ}
    (hnd : (allocKeys m).Nodup) : (allocKeys (allocSet m t v)).Nodup := by
  rw [allocKeys_allocSet]
  split
  · exact hnd
  · rename_i hk
    refine List.Nodup.append hnd (List.nodup_singleton t) ?_
    intro a ha hb
    simp only [List.mem_singleton] at hb
    subst hb
    exact hk (hasKey_iff.mpr ha)

/-! ### Budget distribution lemmas -/

theorem allocGet_addFold (C : List String) (m : BudgetAllocations) (v : ℚ) (u : String) :
    allocGet (C.foldl (fun m t => allocSet m t (allocGet m t + v)) m) u =
      allocGet m u + (C.count u : ℚ) * v := by
  induction C generalizing m with
  | nil => simp
  | cons c C ih =>
    rw [List.foldl_cons, ih, allocGet_allocSet]
    by_cases huc : u = c
    · subst huc
      simp only [if_pos rfl, List.count_cons_self]
      push_cast
      ring
    · rw [if_neg huc]
      have : (c :: C).count u = C.count u := by
        simp [List.count_cons, huc]
      rw [this]

theorem mem_allocKeys_addFold (C : List String) (m : BudgetAllocations) (v : ℚ) (u : String) :
    u ∈ allocKeys (C.foldl (fun m t => allocSet m t (allocGet m t + v)) m) ↔
      u ∈ allocKeys m ∨ u ∈ C := by
  induction C generalizing m with
  | nil => simp
  | cons c C ih =>
    rw [List.foldl_cons, ih, mem_allocKeys_allocSet, List.mem_cons]
    tauto

theorem nodup_allocKeys_addFold (C : List String) (m : BudgetAllocations) (v : ℚ)
    (hnd : (allocKeys m).Nodup) :
    (allocKeys (C.foldl (fun m t => allocSet m t (allocGet m t + v)) m)).Nodup := by
  induction C generalizing m with
  | nil => exact hnd
  | cons c C ih =>
    rw [List.foldl_cons]
    exact ih _ (nodup_allocKeys_allocSet hnd)

theorem allocGet_distribute (m : BudgetAllocations) (C : List String) (b : ℚ) (u : String) :
    allocGet (_distribute_budget m C b) u =
      allocGet m u + (C.count u : ℚ) * (b / C.length) := by
  unfold _distribute_budget
  by_cases hC : C.isEmpty
  · have hnil : C = [] := List.isEmpty_iff.mp hC
    subst hnil
    simp
  · rw [if_neg hC]
    exact allocGet_addFold C m _ u

theorem mem_allocKeys_distribute (m : BudgetAllocations) (C : List String) (b : ℚ)
    (u : String) :
    u ∈ allocKeys (_distribute_budget m C b) ↔ u ∈ allocKeys m ∨ u ∈ C := by
  unfold _distribute_budget
  by_cases hC : C.isEmpty
  · have hnil : C = [] := List.isEmpty_iff.mp hC
    subst hnil
    simp
  · rw [if_neg hC]
    exact mem_allocKeys_addFold C m _ u

theorem nodup_allocKeys_distribute (m : BudgetAllocations) (C : List String) (b : ℚ)
    (hnd : (allocKeys m).Nodup) : (allocKeys (_distribute_budget m C b)).Nodup := by
  unfold _distribute_budget
  by_cases hC : C.isEmpty
  · rw [if_pos hC]; exact hnd
  · rw [if_neg hC]
    exact nodup_allocKeys_addFold C m _ hnd

/-! ### Tier processing lemmas -/

theorem RISK_RATED_STOCKS_nodup (level : RiskLevel) :
    (RISK_RATED_STOCKS level).Nodup := by
  cases level <;> decide

theorem stocks_to_buy_def (i a : List String) (level : RiskLevel) :
    stocks_to_buy i a level =
      if ((RISK_RATED_STOCKS level).filter
            (fun t => i.contains t && !(a.contains t))).isEmpty = true then
        (RISK_RATED_STOCKS level).filter (fun t => !(a.contains t))
      else (RISK_RATED_STOCKS level).filter (fun t => i.contains t && !(a.contains t)) :=
  rfl

theorem stocks_to_buy_nodup (i a : List String) (level : RiskLevel) :
    (stocks_to_buy i a level).Nodup := by
  rw [stocks_to_buy_def]
  split
  · exact (RISK_RATED_STOCKS_nodup level).filter _
  · exact (RISK_RATED_STOCKS_nodup level).filter _

/-- The number of dollars one tier pass adds to one ticker's allocation:
`tier budget / pool size` when the tier budget is positive and the ticker is
in the tier's candidate pool, `0` otherwise. -/
def level_contrib (interest_ts avoid_ts : List String) (risk_budgets : RiskLevel → ℚ)
    (level : RiskLevel) (u : String) : ℚ :=
  if 0 < risk_budgets level ∧ u ∈ stocks_to_buy interest_ts avoid_ts level then
    risk_budgets level / (stocks_to_buy interest_ts avoid_ts level).length
  else 0

theorem allocGet_process_level (i a : List String) (rb : RiskLevel → ℚ)
    (m : BudgetAllocations) (level : RiskLevel) (u : String) :
    allocGet (process_level i a rb m level) u =
      allocGet m u + level_contrib i a rb level u := by
  unfold process_level level_contrib
  by_cases hb : rb level ≤ 0
  · rw [if_pos hb, if_neg (fun h => absurd h.1 (not_lt.mpr hb))]
    ring
  · rw [if_neg hb]
    by_cases hs : (stocks_to_buy i a level).isEmpty
    · rw [if_pos hs]
      have hse : stocks_to_buy i a level = [] := List.isEmpty_iff.mp hs
      rw [if_neg (by simp [hse])]
      ring
    · rw [if_neg hs, allocGet_distribute]
      by_cases hu : u ∈ stocks_to_buy i a level
      · rw [List.count_eq_one_of_mem (stocks_to_buy_nodup i a level) hu,
          if_pos ⟨lt_of_not_le hb, hu⟩]
        simp
      · rw [List.count_eq_zero_of_not_mem hu,
          if_neg (fun h => hu h.2)]
        simp

theorem mem_allocKeys_process_level (i a : List String) (rb : RiskLevel → ℚ)
    (m : BudgetAllocations) (level : RiskLevel) (u : String) :
    u ∈ allocKeys (process_level i a rb m level) ↔
      u ∈ allocKeys m ∨ (0 < rb level ∧ u ∈ stocks_to_buy i a level) := by
  unfold process_level
  by_cases hb : rb level ≤ 0
  · rw [if_pos hb]
    have : ¬ (0 < rb level ∧ u ∈ stocks_to_buy i a level) :=
      fun h => absurd h.1 (not_lt.mpr hb)
    tauto
  · rw [if_neg hb]
    by_cases hs : (stocks_to_buy i a level).isEmpty
    · rw [if_pos hs]
      have hse : stocks_to_buy i a level = [] := List.isEmpty_iff.mp hs
      simp [hse]
    · rw [if_neg hs, mem_allocKeys_distribute]
      have : 0 < rb level := lt_of_not_le hb
      tauto

theorem nodup_allocKeys_process_level (i a : List String) (rb : RiskLevel → ℚ)
    (m : BudgetAllocations) (level : RiskLevel) (hnd : (allocKeys m).Nodup) :
    (allocKeys (process_level i a rb m level)).Nodup := by
  unfold process_level
  by_cases hb : rb level ≤ 0
  · rw [if_pos hb]; exact hnd
  · rw [if_neg hb]
    by_cases hs : (stocks_to_buy i a level).isEmpty
    · rw [if_pos hs]; exact hnd
    · rw [if_neg hs]
      exact nodup_allocKeys_distribute _ _ _ hnd

/-! ### Final allocation lemmas -/

theorem final_budget_allocations_eq (b : ℚ) (pr : RiskProfile) (i a : List String) :
    final_budget_allocations b pr i a =
      process_level i a (risk_budget b pr)
        (process_level i a (risk_budget b pr)
          (process_level i a (risk_budget b pr) [] .low) .medium) .high := by
  simp [final_budget_allocations, List.foldl]

theorem allocGet_final (b : ℚ) (pr : RiskProfile) (i a : List String) (u : String) :
    allocGet (final_budget_allocations b pr i a) u =
      level_contrib i a (risk_budget b pr) .low u +
      level_contrib i a (risk_budget b pr) .medium u +
      level_contrib i a (risk_budget b pr) .high u := by
  rw [final_budget_allocations_eq, allocGet_process_level, allocGet_process_level,
    allocGet_process_level, allocGet_nil]
  ring

theorem mem_allocKeys_final (b : ℚ) (pr : RiskProfile) (i a : List String) (u : String) :
    u ∈ allocKeys (final_budget_allocations b pr i a) ↔
      (0 < risk_budget b pr .low ∧ u ∈ stocks_to_buy i a .low) ∨
      (0 < risk_budget b pr .medium ∧ u ∈ stocks_to_buy i a .medium) ∨
      (0 < risk_budget b pr .high ∧ u ∈ stocks_to_buy i a .high) := by
  rw [final_budget_allocations_eq, mem_allocKeys_process_level,
    mem_allocKeys_process_level, mem_allocKeys_process_level]
  simp only [allocKeys_nil, List.not_mem_nil, false_or]
  tauto

theorem nodup_allocKeys_final (b : ℚ) (pr : RiskProfile) (i a : List String) :
    (allocKeys (final_budget_allocations b pr i a)).Nodup := by
  rw [final_budget_allocations_eq]
  exact nodup_allocKeys_process_level _ _ _ _ _
    (nodup_allocKeys_process_level _ _ _ _ _
      (nodup_allocKeys_process_level _ _ _ _ _ List.nodup_nil))

theorem level_contrib_nonneg (i a : List String) (rb : RiskLevel → ℚ)
    (level : RiskLevel) (u : String) : 0 ≤ level_contrib i a rb level u := by
  unfold level_contrib
  split
  · rename_i h
    exact div_nonneg h.1.le (Nat.cast_nonneg _)
  · exact le_refl 0

theorem allocGet_final_nonneg (b : ℚ) (pr : RiskProfile) (i a : List String)
    (u : String) : 0 ≤ allocGet (final_budget_allocations b pr i a) u := by
  rw [allocGet_final]
  have h1 := level_contrib_nonneg i a (risk_budget b pr) .low u
  have h2 := level_contrib_nonneg i a (risk_budget b pr) .medium u
  have h3 := level_contrib_nonneg i a (risk_budget b pr) .high u
  linarith

/-! ### Share conversion lemmas -/

theorem convert_entry_none_of_no_price {prices : String → Option ℚ} {p : String × ℚ}
    (h : prices p.1 = none) : convert_entry prices p = none := by
  simp [convert_entry, h]

theorem convert_entry_some_spec {prices : String → Option ℚ} {p : String × ℚ}
    {e : PortfolioEntry} (h : convert_entry prices p = some e) :
    ∃ price, prices p.1 = some price ∧ price ≠ 0 ∧ price ≤ p.2 ∧
      0 < ⌊p.2 / price⌋ ∧ e = ⟨p.1, ⌊p.2 / price⌋⟩ := by
  unfold convert_entry at h
  cases hp : prices p.1 with
  | none => rw [hp] at h; cases h
  | some price =>
    rw [hp] at h
    dsimp only at h
    by_cases h0 : price = 0
    · rw [if_pos h0] at h; cases h
    · rw [if_neg h0] at h
      by_cases hge : p.2 ≥ price
      · rw [if_pos hge] at h
        by_cases hq : ⌊p.2 / price⌋ > 0
        · rw [if_pos hq] at h
          exact ⟨price, rfl, h0, hge, hq, (Option.some.inj h).symm⟩
        · rw [if_neg hq] at h; cases h
      · rw [if_neg hge] at h; cases h

theorem convert_entry_some_of {prices : String → Option ℚ} {t : String} {a price : ℚ}
    (hp : prices t = some price) (h0 : price ≠ 0) (hge : price ≤ a)
    (hq : 0 < ⌊a / price⌋) :
    convert_entry prices (t, a) = some ⟨t, ⌊a / price⌋⟩ := by
  unfold convert_entry
  rw [hp]
  dsimp only
  rw [if_neg h0, if_pos hge, if_pos hq]

theorem mem_convert_iff {m : BudgetAllocations} {prices : String → Option ℚ}
    {e : PortfolioEntry} (hnd : (allocKeys m).Nodup) :
    e ∈ convert_allocations m prices ↔
      e.ticker ∈ allocKeys m ∧
        convert_entry prices (e.ticker, allocGet m e.ticker) = some e := by
  unfold convert_allocations
  rw [List.mem_filterMap]
  constructor
  · rintro ⟨p, hp, hconv⟩
    have hkey : p.1 ∈ allocKeys m := List.mem_map.mpr ⟨p, hp, rfl⟩
    have hget : allocGet m p.1 = p.2 := by
      apply allocGet_eq_of_mem hnd
      rw [Prod.mk.eta]
      exact hp
    have hticker : e.ticker = p.1 := by
      obtain ⟨price, _, _, _, _, rfl⟩ := convert_entry_some_spec hconv
      rfl
    rw [hticker, hget, Prod.mk.eta]
    exact ⟨hkey, hconv⟩
  · rintro ⟨hkey, hconv⟩
    exact ⟨(e.ticker, allocGet m e.ticker), mem_of_hasKey hkey, hconv⟩

theorem convert_eq_nil_iff {m : BudgetAllocations} {prices : String → Option ℚ} :
    convert_allocations m prices = [] ↔ ∀ p ∈ m, convert_entry prices p = none := by
  unfold convert_allocations
  exact List.filterMap_eq_nil_iff

theorem map_ticker_convert_sublist (m : BudgetAllocations)
    (prices : String → Option ℚ) :
    ((convert_allocations m prices).map PortfolioEntry.ticker).Sublist (allocKeys m) := by
  induction m with
  | nil => simp [convert_allocations, allocKeys]
  | cons p m ih =>
    unfold convert_allocations at *
    rw [List.filterMap_cons]
    have hkeys : allocKeys (p :: m) = p.1 :: allocKeys m := rfl
    rw [hkeys]
    cases hc : convert_entry prices p with
    | none => exact ih.cons _
    | some e =>
      rw [List.map_cons]
      have he : e.ticker = p.1 := by
        obtain ⟨price, _, _, _, _, rfl⟩ := convert_entry_some_spec hc
        rfl
      rw [he]
      exact ih.cons₂ _

/-! ### Emergency fallback and build lemmas -/

theorem emergency_fallback_spec (a : List String) (prices : String → Option ℚ)
    (b : ℚ) :
    emergency_fallback a prices b = [] ∨
    ∃ t p, emergency_fallback a prices b = [⟨t, 1⟩] ∧
      t ∈ RISK_RATED_STOCKS .low ∧ a.contains t = false ∧
      prices t = some p ∧ p ≠ 0 ∧ p ≤ b := by
  unfold emergency_fallback
  cases hf : (RISK_RATED_STOCKS .low).find?
      (fun t => !(a.contains t) &&
        (match prices t with
         | some p => decide (p ≠ 0) && decide (b ≥ p)
         | none => false)) with
  | none => left; rfl
  | some t =>
    right
    have hmem := List.mem_of_find?_eq_some hf
    have hcond := List.find?_some hf
    simp only [Bool.and_eq_true, Bool.not_eq_true'] at hcond
    obtain ⟨hna, hmatch⟩ := hcond
    cases hp : prices t with
    | none => rw [hp] at hmatch; cases hmatch
    | some p =>
      rw [hp] at hmatch
      simp only [Bool.and_eq_true, decide_eq_true_eq] at hmatch
      exact ⟨t, p, rfl, hmem, hna, hp, hmatch.1, hmatch.2⟩

/-- The allocation dict computed inside `build_pool_filling_portfolio`. -/
def build_allocations (inv : InvestorData) : BudgetAllocations :=
  final_budget_allocations (inv.budget.getD 10000)
    (get_risk_profile (inv.age.getD 40) (inv.budget.getD 10000))
    (interest_tickers (inv.interests.getD []))
    (final_avoid_tickers (inv.avoid_list.getD []))

theorem build_eq (inv : InvestorData) (prices : String → Option ℚ) :
    build_pool_filling_portfolio inv prices =
      if (convert_allocations (build_allocations inv) prices).isEmpty then
        emergency_fallback (final_avoid_tickers (inv.avoid_list.getD [])) prices
          (inv.budget.getD 10000)
      else convert_allocations (build_allocations inv) prices :=
  rfl

/-! ### Claim C5: risk classification -/

/-- C5: the risk profile is decided first-match-wins — conservative iff
`age ≥ 60 ∨ budget < 20000`; moderate iff that fails and
`age ≥ 40 ∨ budget < 75000`; aggressive iff `age < 40 ∧ 75000 ≤ budget` —
and a missing age or budget behaves exactly like the defaults `age = 40`,
`budget = 10000`. -/
theorem risk_profile_first_match_and_defaults (age : ℤ) (budget : ℚ)
    (i av : Option (List String)) (prices : String → Option ℚ) :
    (get_risk_profile age budget = .conservative ↔ (60 ≤ age ∨ budget < 20000)) ∧
    (get_risk_profile age budget = .moderate ↔
      (¬ (60 ≤ age ∨ budget < 20000) ∧ (40 ≤ age ∨ budget < 75000))) ∧
    (get_risk_profile age budget = .aggressive ↔ (age < 40 ∧ 75000 ≤ budget)) ∧
    build_pool_filling_portfolio ⟨none, none, i, av⟩ prices =
      build_pool_filling_portfolio ⟨some 40, some 10000, i, av⟩ prices := by
  refine ⟨⟨?_, ?_⟩, ⟨?_, ?_⟩, ⟨?_, ?_⟩, rfl⟩
  · intro h
    unfold get_risk_profile at h
    split_ifs at h with h1 h2
    exact h1
  · intro h
    unfold get_risk_profile
    rw [if_pos h]
  · intro h
    unfold get_risk_profile at h
    split_ifs at h with h1 h2
    exact ⟨h1, h2⟩
  · rintro ⟨h1, h2⟩
    unfold get_risk_profile
    rw [if_neg h1, if_pos h2]
  · intro h
    unfold get_risk_profile at h
    split_ifs at h with h1 h2
    push_neg at h2
    exact h2
  · rintro ⟨ha, hb⟩
    unfold get_risk_profile
    rw [if_neg ?_, if_neg ?_]
    · rintro (h | h)
      · omega
      · linarith
    · rintro (h | h)
      · omega
      · linarith

/-! ### Claim C10: duplicate-ticker guard -/

/-- C10: a submission list containing a duplicate ticker is rejected with a
failure result before any HTTP POST is made. -/
theorem send_portfolio_rejects_duplicates (ws : List (String × ℤ))
    (h : ¬ (ws.map Prod.fst).Nodup) :
    send_portfolio ws = .rejected "Duplicate tickers in submission" := by
  unfold send_portfolio
  rw [if_pos]
  intro hlen
  apply h
  have hsub := (ws.map Prod.fst).dedup_sublist
  have heq : (ws.map Prod.fst).dedup = ws.map Prod.fst := hsub.eq_of_length hlen
  rw [← heq]
  exact (ws.map Prod.fst).nodup_dedup

/-- Witness for C10 at the concrete duplicate submission `[(A,1),(A,2)]`. -/
theorem send_portfolio_rejects_duplicates_witness :
    send_portfolio [("A", 1), ("A", 2)] = .rejected "Duplicate tickers in submission" :=
  send_portfolio_rejects_duplicates [("A", 1), ("A", 2)] (by decide)

/-! ### Claim C8: zero budget -/

/-- C8: with a budget of `0` (and positive prices, as the price map
provides), every tier budget is `0`, every tier is skipped so no dollars are
allocated, the emergency fallback cannot afford any share, and the final
portfolio is empty. -/
theorem build_empty_of_zero_budget (inv : InvestorData) (prices : String → Option ℚ)
    (hb : inv.budget = some 0) (hpos : ∀ u p, prices u = some p → 0 < p) :
    (∀ level, risk_budget (inv.budget.getD 10000)
        (get_risk_profile (inv.age.getD 40) (inv.budget.getD 10000)) level = 0) ∧
    build_allocations inv = [] ∧
    build_pool_filling_portfolio inv prices = [] := by
  have hb0 : inv.budget.getD 10000 = 0 := by rw [hb]; rfl
  have hrb : ∀ pr level, risk_budget 0 pr level = 0 := by
    intro pr level
    simp [risk_budget]
  have hskip : ∀ (i a : List String) (pr : RiskProfile) (m : BudgetAllocations) level,
      process_level i a (risk_budget 0 pr) m level = m := by
    intro i a pr m level
    unfold process_level
    rw [if_pos (le_of_eq (hrb pr level))]
  have halloc : build_allocations inv = [] := by
    unfold build_allocations
    rw [hb0, final_budget_allocations_eq, hskip, hskip, hskip]
  have hfind : ∀ (a : List String),
      (RISK_RATED_STOCKS .low).find?
        (fun t => !(a.contains t) &&
          (match prices t with
           | some p => decide (p ≠ 0) && decide ((0:ℚ) ≥ p)
           | none => false)) = none := by
    intro a
    rw [List.find?_eq_none]
    intro t ht hcond
    simp only [Bool.and_eq_true] at hcond
    rcases hcond with ⟨-, hmatch⟩
    cases hp : prices t with
    | none => rw [hp] at hmatch; cases hmatch
    | some p =>
      rw [hp] at hmatch
      simp only [Bool.and_eq_true, decide_eq_true_eq] at hmatch
      exact absurd hmatch.2 (not_le.mpr (hpos t p hp))
  have hfb : ∀ (a : List String), emergency_fallback a prices 0 = [] := by
    intro a
    unfold emergency_fallback
    rw [hfind a]
  refine ⟨?_, halloc, ?_⟩
  · intro level
    rw [hb0]
    exact hrb _ level
  · rw [build_eq, halloc]
    have hconv : convert_allocations [] prices = [] := rfl
    rw [hconv, hb0]
    exact hfb _

/-- Witness for C8 at a concrete zero-budget investor with no known prices. -/
theorem build_empty_of_zero_budget_witness :
    build_pool_filling_portfolio ⟨some 70, some 0, none, none⟩ (fun _ => none) = [] :=
  (build_empty_of_zero_budget ⟨some 70, some 0, none, none⟩ (fun _ => none) rfl
    (fun u p h => by cases h)).2.2

/-! ### Claim C4: share conversion -/

/-- C4: in the conversion step, a ticker with an accumulated allocation is
bought as the integer floor of allocation over price, and it is silently
dropped (appears with no entry at all) when its price is unknown or its
allocation is below its price. -/
theorem conversion_floor_and_drop (m : BudgetAllocations) (prices : String → Option ℚ)
    (t : String) (a : ℚ) (hnd : (allocKeys m).Nodup) (hmem : (t, a) ∈ m)
    (hpos : ∀ u q, prices u = some q → 0 < q) :
    (prices t = none → ∀ e ∈ convert_allocations m prices, e.ticker ≠ t) ∧
    (∀ p, prices t = some p → a < p →
      ∀ e ∈ convert_allocations m prices, e.ticker ≠ t) ∧
    (∀ p, prices t = some p → p ≤ a →
      PortfolioEntry.mk t ⌊a / p⌋ ∈ convert_allocations m prices ∧ 0 < ⌊a / p⌋) := by
  have hget : allocGet m t = a := allocGet_eq_of_mem hnd hmem
  have hkey : t ∈ allocKeys m := List.mem_map.mpr ⟨(t, a), hmem, rfl⟩
  refine ⟨?_, ?_, ?_⟩
  · intro hnone e he het
    rcases (mem_convert_iff hnd).mp he with ⟨-, hconv⟩
    rw [het] at hconv
    obtain ⟨price, hprice, -, -, -, -⟩ := convert_entry_some_spec hconv
    rw [show ((t, allocGet m t).1 : String) = t from rfl, hnone] at hprice
    cases hprice
  · intro p hp hlt e he het
    rcases (mem_convert_iff hnd).mp he with ⟨-, hconv⟩
    rw [het] at hconv
    obtain ⟨price, hprice, -, hge, -, -⟩ := convert_entry_some_spec hconv
    rw [show ((t, allocGet m t).1 : String) = t from rfl, hp] at hprice
    injection hprice with hpp
    rw [show ((t, allocGet m t).2 : ℚ) = allocGet m t from rfl, hget, ← hpp] at hge
    exact absurd hge (not_le.mpr hlt)
  · intro p hp hle
    have hppos : 0 < p := hpos t p hp
    have h1 : (1 : ℚ) ≤ a / p := (one_le_div hppos).mpr hle
    have hq : 0 < ⌊a / p⌋ := by
      have h2 : (1 : ℤ) ≤ ⌊a / p⌋ := Int.le_floor.mpr (by exact_mod_cast h1)
      omega
    refine ⟨(mem_convert_iff hnd).mpr ⟨hkey, ?_⟩, hq⟩
    rw [show (PortfolioEntry.mk t ⌊a / p⌋).ticker = t from rfl, hget]
    exact convert_entry_some_of hp (ne_of_gt hppos) hle hq

/-- Witness for C4 at the concrete single-entry allocation
`JNJ ↦ 1000` with `JNJ` priced `160`: it buys `⌊1000 / 160⌋ = 6` shares. -/
theorem conversion_floor_and_drop_witness :
    PortfolioEntry.mk "JNJ" 6 ∈ convert_allocations [("JNJ", 1000)]
      (fun u => if u = "JNJ" then some 160 else none) := by
  have h := (conversion_floor_and_drop [("JNJ", 1000)]
      (fun u => if u = "JNJ" then some 160 else none) "JNJ" 1000
      (by simp [allocKeys]) (by simp)
      (by
        intro u q hq
        dsimp only at hq
        by_cases hu : u = "JNJ"
        · rw [if_pos hu] at hq
          injection hq with h160
          rw [← h160]
          norm_num
        · rw [if_neg hu] at hq
          cases hq)).2.2 160 (by simp) (by norm_num)
  have hfl : (⌊(1000 : ℚ) / 160⌋ : ℤ) = 6 := by norm_num
  rw [hfl] at h
  exact h.1

/-! ### Claim C7: distinct tickers, positive quantities -/

/-- C7: every portfolio produced by `build_pool_filling_portfolio` has
pairwise distinct tickers, and every quantity in it is strictly positive. -/
theorem portfolio_nodup_and_positive (inv : InvestorData) (prices : String → Option ℚ) :
    ((build_pool_filling_portfolio inv prices).map PortfolioEntry.ticker).Nodup ∧
    ∀ e ∈ build_pool_filling_portfolio inv prices, 0 < e.quantity := by
  rw [build_eq]
  split
  · rcases emergency_fallback_spec (final_avoid_tickers (inv.avoid_list.getD []))
        prices (inv.budget.getD 10000) with hemp | ⟨t, p, heq, -, -, -, -, -⟩
    · rw [hemp]
      exact ⟨List.nodup_nil, by simp⟩
    · rw [heq]
      refine ⟨by simp, ?_⟩
      intro e he
      simp only [List.mem_singleton] at he
      subst he
      norm_num
  · have hnd : (allocKeys (build_allocations inv)).Nodup := nodup_allocKeys_final _ _ _ _
    constructor
    · exact (map_ticker_convert_sublist _ _).nodup hnd
    · intro e he
      rcases List.mem_filterMap.mp he with ⟨p, -, hconv⟩
      obtain ⟨price, -, -, -, hq, rfl⟩ := convert_entry_some_spec hconv
      exact hq

/-! ### Claim C6: the veto list -/

theorem not_avoided_of_mem_stocks_to_buy {i a : List String} {level : RiskLevel}
    {t : String} (h : t ∈ stocks_to_buy i a level) : t ∉ a := by
  intro hmem
  have hel : a.contains t = true := by
    simpa [List.contains] using List.elem_iff.mpr hmem
  rw [stocks_to_buy_def] at h
  split at h
  · have hb := (List.mem_filter.mp h).2
    rw [hel] at hb
    simp at hb
  · have hb := (List.mem_filter.mp h).2
    rw [hel] at hb
    simp at hb

/-- No ticker of a produced portfolio is in the resolved veto set. -/
theorem build_ticker_not_avoided (inv : InvestorData) (prices : String → Option ℚ) :
    ∀ e ∈ build_pool_filling_portfolio inv prices,
      e.ticker ∉ final_avoid_tickers (inv.avoid_list.getD []) := by
  intro e he
  rw [build_eq] at he
  split at he
  · rcases emergency_fallback_spec (final_avoid_tickers (inv.avoid_list.getD []))
        prices (inv.budget.getD 10000) with hemp | ⟨t, p, heqq, -, hnc, -, -, -⟩
    · rw [hemp] at he
      cases he
    · rw [heqq] at he
      simp only [List.mem_singleton] at he
      subst he
      intro hmem
      have hc : (final_avoid_tickers (inv.avoid_list.getD [])).contains t = true := by
        simpa [List.contains] using List.elem_iff.mpr hmem
      rw [hnc] at hc
      cases hc
  · have hnd : (allocKeys (build_allocations inv)).Nodup := nodup_allocKeys_final _ _ _ _
    have hkey : e.ticker ∈ allocKeys (build_allocations inv) :=
      ((mem_convert_iff hnd).mp he).1
    rcases (mem_allocKeys_final _ _ _ _ _).mp hkey with ⟨-, hst⟩ | ⟨-, hst⟩ | ⟨-, hst⟩ <;>
      exact not_avoided_of_mem_stocks_to_buy hst

theorem keys_nodup_mem_unique {α : Type} {l : List (String × α)}
    (hnd : (l.map Prod.fst).Nodup) {k : String} {v w : α}
    (hv : (k, v) ∈ l) (hw : (k, w) ∈ l) : v = w := by
  induction l with
  | nil => cases hv
  | cons p l ih =>
    have hnotin := (List.nodup_cons.mp hnd).1
    have hnd' := (List.nodup_cons.mp hnd).2
    rcases List.mem_cons.mp hv with hv0 | hv'
    · rcases List.mem_cons.mp hw with hw0 | hw'
      · rw [← hv0] at hw0
        injection hw0 with h1 h2
        exact h2.symm
      · exfalso
        apply hnotin
        rw [← hv0]
        exact List.mem_map.mpr ⟨(k, w), hw', rfl⟩
    · rcases List.mem_cons.mp hw with hw0 | hw'
      · exfalso
        apply hnotin
        rw [← hw0]
        exact List.mem_map.mpr ⟨(k, v), hv', rfl⟩
      · exact ih hnd' hv' hw'

theorem SECTOR_MAP_keys_nodup : (SECTOR_MAP.map Prod.fst).Nodup := by decide

theorem mem_avoid_foldl (items acc : List String) (u : String) :
    u ∈ items.foldl (fun acc item =>
        match SECTOR_MAP.find? (fun p => decide (p.1 = item)) with
        | some p => acc ++ p.2
        | none => acc ++ [strUpper item]) acc ↔
      u ∈ acc ∨ ∃ item ∈ items,
        (match SECTOR_MAP.find? (fun p => decide (p.1 = item)) with
         | some p => u ∈ p.2
         | none => u = strUpper item) := by
  induction items generalizing acc with
  | nil => simp
  | cons it items ih =>
    rw [List.foldl_cons, ih]
    cases hf : SECTOR_MAP.find? (fun p => decide (p.1 = it)) with
    | some p =>
      simp only [hf, List.mem_append, List.exists_mem_cons_iff]
      tauto
    | none =>
      simp only [hf, List.mem_append, List.mem_singleton, List.exists_mem_cons_iff]
      tauto

/-- Membership in the resolved veto set, phrased by sector lookup: an avoid
entry naming a sector contributes that sector's tickers, any other entry
contributes its upper-cased self. -/
theorem mem_final_avoid_iff (l : List String) (u : String) :
    u ∈ final_avoid_tickers l ↔
      ∃ s ∈ l, (∃ stocks, (strLower s, stocks) ∈ SECTOR_MAP ∧ u ∈ stocks) ∨
        ((∀ stocks, (strLower s, stocks) ∉ SECTOR_MAP) ∧ u = strUpper (strLower s)) := by
  unfold final_avoid_tickers
  rw [mem_avoid_foldl]
  simp only [List.not_mem_nil, false_or]
  constructor
  · rintro ⟨item, hitem, hcond⟩
    obtain ⟨s, hs, rfl⟩ := List.mem_map.mp hitem
    refine ⟨s, hs, ?_⟩
    cases hf : SECTOR_MAP.find? (fun p => decide (p.1 = strLower s)) with
    | some p =>
      rw [hf] at hcond
      left
      have hmem := List.mem_of_find?_eq_some hf
      have hkey : p.1 = strLower s := by simpa using List.find?_some hf
      refine ⟨p.2, ?_, hcond⟩
      rw [← hkey, Prod.mk.eta]
      exact hmem
    | none =>
      rw [hf] at hcond
      right
      refine ⟨?_, hcond⟩
      intro stocks hst
      have := List.find?_eq_none.mp hf _ hst
      simp at this
  · rintro ⟨s, hs, hcase⟩
    refine ⟨strLower s, List.mem_map.mpr ⟨s, hs, rfl⟩, ?_⟩
    cases hf : SECTOR_MAP.find? (fun p => decide (p.1 = strLower s)) with
    | some p =>
      dsimp only
      have hmem := List.mem_of_find?_eq_some hf
      have hkey : p.1 = strLower s := by simpa using List.find?_some hf
      rcases hcase with ⟨stocks, hstm, hu⟩ | ⟨hnone, -⟩
      · have heq : stocks = p.2 := by
          refine keys_nodup_mem_unique SECTOR_MAP_keys_nodup hstm ?_
          rw [← hkey, Prod.mk.eta]
          exact hmem
        rw [← heq]
        exact hu
      · exfalso
        apply hnone p.2
        rw [← hkey, Prod.mk.eta]
        exact hmem
    | none =>
      dsimp only
      rcases hcase with ⟨stocks, hstm, hu⟩ | ⟨-, hu⟩
      · have := List.find?_eq_none.mp hf _ hstm
        simp at this
      · exact hu

/-- C6: no ticker of the resolved exclusion set appears in any produced
portfolio; the exclusion set resolves sector names to all their tickers and
other entries to their upper-cased selves; and exclusion beats interest —
with `avoid_list = ["tech"]` and `interests = ["tech"]`, neither `AAPL` nor
`MSFT` can ever be bought. -/
theorem no_vetoed_ticker_in_portfolio (inv : InvestorData) (prices : String → Option ℚ) :
    (∀ e ∈ build_pool_filling_portfolio inv prices,
        e.ticker ∉ final_avoid_tickers (inv.avoid_list.getD [])) ∧
    (∀ (l : List String) (u : String), u ∈ final_avoid_tickers l ↔
      ∃ s ∈ l, (∃ stocks, (strLower s, stocks) ∈ SECTOR_MAP ∧ u ∈ stocks) ∨
        ((∀ stocks, (strLower s, stocks) ∉ SECTOR_MAP) ∧ u = strUpper (strLower s))) ∧
    (∀ (prices2 : String → Option ℚ) (a2 : Option ℤ) (b2 : Option ℚ)
        (e : PortfolioEntry),
      e ∈ build_pool_filling_portfolio ⟨a2, b2, some ["tech"], some ["tech"]⟩ prices2 →
        e.ticker ≠ "AAPL" ∧ e.ticker ≠ "MSFT") := by
  refine ⟨build_ticker_not_avoided inv prices, mem_final_avoid_iff, ?_⟩
  intro prices2 a2 b2 e he
  have h := build_ticker_not_avoided ⟨a2, b2, some ["tech"], some ["tech"]⟩ prices2 e he
  have havoid : final_avoid_tickers
      ((some ["tech"] : Option (List String)).getD []) = ["AAPL", "MSFT"] := by decide
  rw [havoid] at h
  constructor
  · intro hA
    apply h
    rw [hA]
    simp
  · intro hM
    apply h
    rw [hM]
    simp

/-! ### Claim C3: tier processing -/

/-- The spec's candidate set of a tier, in set notation:
`(tier ∩ interests) \ avoided`, falling back to `tier \ avoided` when that
intersection is empty. -/
def specCandidates (interestTs avoidTs : Finset String) (level : RiskLevel) :
    Finset String :=
  if ((RISK_RATED_STOCKS level).toFinset ∩ interestTs) \ avoidTs = ∅ then
    (RISK_RATED_STOCKS level).toFinset \ avoidTs
  else ((RISK_RATED_STOCKS level).toFinset ∩ interestTs) \ avoidTs

/-- The spec's per-tier contribution: an even share of the tier budget when
the tier budget is positive and the ticker is a candidate, else nothing
(an empty candidate set forfeits the tier's budget). -/
def spec_tier_contribution (budget : ℚ) (profile : RiskProfile)
    (interestTs avoidTs : Finset String) (level : RiskLevel) (u : String) : ℚ :=
  if 0 < budget * BUDGET_ALLOCATIONS profile level ∧
      u ∈ specCandidates interestTs avoidTs level then
    budget * BUDGET_ALLOCATIONS profile level /
      (specCandidates interestTs avoidTs level).card
  else 0

theorem filter_interest_toFinset (i a : List String) (level : RiskLevel) :
    ((RISK_RATED_STOCKS level).filter
        (fun t => i.contains t && !(a.contains t))).toFinset =
      ((RISK_RATED_STOCKS level).toFinset ∩ i.toFinset) \ a.toFinset := by
  ext u
  simp only [List.mem_toFinset, List.mem_filter, Finset.mem_sdiff, Finset.mem_inter,
    Bool.and_eq_true, Bool.not_eq_true', List.contains, List.elem_eq_mem,
    decide_eq_true_eq, decide_eq_false_iff_not]
  tauto

theorem filter_avoid_toFinset (a : List String) (level : RiskLevel) :
    ((RISK_RATED_STOCKS level).filter (fun t => !(a.contains t))).toFinset =
      (RISK_RATED_STOCKS level).toFinset \ a.toFinset := by
  ext u
  simp only [List.mem_toFinset, List.mem_filter, Finset.mem_sdiff,
    Bool.not_eq_true', List.contains, List.elem_eq_mem,
    decide_eq_false_iff_not]

theorem stocks_to_buy_toFinset (i a : List String) (level : RiskLevel) :
    (stocks_to_buy i a level).toFinset = specCandidates i.toFinset a.toFinset level := by
  rw [stocks_to_buy_def]
  unfold specCandidates
  by_cases hemp : ((RISK_RATED_STOCKS level).filter
      (fun t => i.contains t && !(a.contains t))).isEmpty = true
  · rw [if_pos hemp, if_pos, filter_avoid_toFinset]
    rw [← filter_interest_toFinset, List.toFinset_eq_empty_iff]
    exact List.isEmpty_iff.mp hemp
  · rw [if_neg hemp, if_neg, filter_interest_toFinset]
    rw [← filter_interest_toFinset, List.toFinset_eq_empty_iff]
    intro hnil
    exact hemp (List.isEmpty_iff.mpr hnil)

theorem stocks_to_buy_length (i a : List String) (level : RiskLevel) :
    (stocks_to_buy i a level).length = (specCandidates i.toFinset a.toFinset level).card := by
  rw [← stocks_to_buy_toFinset, List.toFinset_card_of_nodup (stocks_to_buy_nodup i a level)]

theorem mem_stocks_to_buy_iff (i a : List String) (level : RiskLevel) (u : String) :
    u ∈ stocks_to_buy i a level ↔ u ∈ specCandidates i.toFinset a.toFinset level := by
  rw [← stocks_to_buy_toFinset, List.mem_toFinset]

theorem level_contrib_eq_spec (b : ℚ) (pr : RiskProfile) (i a : List String)
    (level : RiskLevel) (u : String) :
    level_contrib i a (risk_budget b pr) level u =
      spec_tier_contribution b pr i.toFinset a.toFinset level u := by
  unfold level_contrib spec_tier_contribution risk_budget
  rw [stocks_to_buy_length]
  exact if_congr (and_congr Iff.rfl (mem_stocks_to_buy_iff i a level u)) rfl rfl

/-- C3: the accumulated allocation of every ticker is exactly the sum over
the tiers low, medium, high of an even share of that tier's budget — the
share being `tier budget / |candidates|` when the tier budget is positive
and the ticker is one of the candidates `(tier ∩ interests) \ avoided`
(falling back to `tier \ avoided` when the interest match is empty), and `0`
otherwise: a tier whose candidates are all vetoed contributes nothing
anywhere (its budget is forfeited), and a ticker in several tiers gets the
sum of its shares. -/
theorem allocation_is_sum_of_tier_shares (b : ℚ) (pr : RiskProfile)
    (i a : List String) (u : String) :
    allocGet (final_budget_allocations b pr i a) u =
      spec_tier_contribution b pr i.toFinset a.toFinset .low u +
      spec_tier_contribution b pr i.toFinset a.toFinset .medium u +
      spec_tier_contribution b pr i.toFinset a.toFinset .high u := by
  rw [allocGet_final, level_contrib_eq_spec, level_contrib_eq_spec, level_contrib_eq_spec]

/-! ### Claim C1: non-emptiness -/

theorem allocGet_final_ge_contrib (b : ℚ) (pr : RiskProfile) (i a : List String)
    (level : RiskLevel) (u : String) :
    level_contrib i a (risk_budget b pr) level u ≤
      allocGet (final_budget_allocations b pr i a) u := by
  rw [allocGet_final]
  have h1 := level_contrib_nonneg i a (risk_budget b pr) .low u
  have h2 := level_contrib_nonneg i a (risk_budget b pr) .medium u
  have h3 := level_contrib_nonneg i a (risk_budget b pr) .high u
  cases level <;> linarith

/-- C1 (amended): with a positive budget, if some tier has a positive tier
budget and its candidate pool contains a ticker whose known positive price
is at most the tier budget divided by the pool size (its per-ticker share),
then the portfolio is non-empty. -/
theorem build_nonempty_of_affordable_candidate (inv : InvestorData)
    (prices : String → Option ℚ) (level : RiskLevel) (t : String) (p : ℚ)
    (hbpos : 0 < inv.budget.getD 10000)
    (hrb : 0 < risk_budget (inv.budget.getD 10000)
      (get_risk_profile (inv.age.getD 40) (inv.budget.getD 10000)) level)
    (ht : t ∈ stocks_to_buy (interest_tickers (inv.interests.getD []))
      (final_avoid_tickers (inv.avoid_list.getD [])) level)
    (hp : prices t = some p) (hppos : 0 < p)
    (hple : p ≤ risk_budget (inv.budget.getD 10000)
        (get_risk_profile (inv.age.getD 40) (inv.budget.getD 10000)) level /
      (stocks_to_buy (interest_tickers (inv.interests.getD []))
        (final_avoid_tickers (inv.avoid_list.getD [])) level).length) :
    build_pool_filling_portfolio inv prices ≠ [] := by
  set b := inv.budget.getD 10000
  set pr := get_risk_profile (inv.age.getD 40) b
  set i := interest_tickers (inv.interests.getD [])
  set a := final_avoid_tickers (inv.avoid_list.getD [])
  have hcontrib : level_contrib i a (risk_budget b pr) level t =
      risk_budget b pr level / (stocks_to_buy i a level).length := by
    unfold level_contrib
    rw [if_pos ⟨hrb, ht⟩]
  have hge : p ≤ allocGet (final_budget_allocations b pr i a) t := by
    calc p ≤ risk_budget b pr level / (stocks_to_buy i a level).length := hple
    _ = level_contrib i a (risk_budget b pr) level t := hcontrib.symm
    _ ≤ allocGet (final_budget_allocations b pr i a) t :=
        allocGet_final_ge_contrib b pr i a level t
  have hq : 0 < ⌊allocGet (final_budget_allocations b pr i a) t / p⌋ := by
    have h1 : (1 : ℚ) ≤ allocGet (final_budget_allocations b pr i a) t / p :=
      (one_le_div hppos).mpr hge
    have h2 : (1 : ℤ) ≤ ⌊allocGet (final_budget_allocations b pr i a) t / p⌋ :=
      Int.le_floor.mpr (by exact_mod_cast h1)
    omega
  have hkey : t ∈ allocKeys (final_budget_allocations b pr i a) := by
    rw [mem_allocKeys_final]
    cases level
    · exact Or.inl ⟨hrb, ht⟩
    · exact Or.inr (Or.inl ⟨hrb, ht⟩)
    · exact Or.inr (Or.inr ⟨hrb, ht⟩)
  have hconv : convert_entry prices
      (t, allocGet (final_budget_allocations b pr i a) t) =
      some ⟨t, ⌊allocGet (final_budget_allocations b pr i a) t / p⌋⟩ :=
    convert_entry_some_of hp (ne_of_gt hppos) hge hq
  have hmem : (⟨t, ⌊allocGet (final_budget_allocations b pr i a) t / p⌋⟩ :
      PortfolioEntry) ∈
      convert_allocations (final_budget_allocations b pr i a) prices :=
    (mem_convert_iff (nodup_allocKeys_final b pr i a)).mpr ⟨hkey, hconv⟩
  have hne : convert_allocations (build_allocations inv) prices ≠ [] := by
    have heq : build_allocations inv = final_budget_allocations b pr i a := rfl
    rw [heq]
    exact List.ne_nil_of_mem hmem
  rw [build_eq, if_neg]
  · exact hne
  · simpa [List.isEmpty_iff] using hne

/-! ### Concrete scenario A: the spec's worked example (age 70, budget 10000) -/

/-- Price lookup backed by an association list. -/
def pricesOf (l : List (String × ℚ)) : String → Option ℚ :=
  fun t => (l.find? (fun p => decide (p.1 = t))).map Prod.snd

/-- The worked example's investor. -/
def invA : InvestorData := ⟨some 70, some 10000, some [], some []⟩

/-- The worked example's price map. -/
def pricesA : String → Option ℚ :=
  pricesOf [("JNJ", 160), ("PG", 150), ("KO", 65), ("O", 55), ("WMT", 66), ("COST", 750)]

theorem h_profileA : get_risk_profile 70 10000 = .conservative := by
  unfold get_risk_profile
  rw [if_pos (Or.inl (by norm_num))]

theorem h_allocA : build_allocations invA =
    final_budget_allocations 10000 .conservative [] [] := by
  show final_budget_allocations 10000 (get_risk_profile 70 10000)
    (interest_tickers []) (final_avoid_tickers []) = _
  rw [h_profileA, show interest_tickers [] = [] from rfl,
    show final_avoid_tickers [] = [] from rfl]

theorem h_rbA_low : risk_budget 10000 .conservative .low = 7000 := by
  norm_num [risk_budget, BUDGET_ALLOCATIONS]

theorem h_rbA_med : risk_budget 10000 .conservative .medium = 3000 := by
  norm_num [risk_budget, BUDGET_ALLOCATIONS]

theorem h_rbA_high : risk_budget 10000 .conservative .high = 0 := by
  norm_num [risk_budget, BUDGET_ALLOCATIONS]

theorem h_stbA_low : stocks_to_buy [] [] .low = RISK_RATED_STOCKS .low := by decide

theorem h_stbA_med : stocks_to_buy [] [] .medium = RISK_RATED_STOCKS .medium := by decide

theorem h_getA : ∀ t ∈ RISK_RATED_STOCKS .low,
    allocGet (final_budget_allocations 10000 .conservative [] []) t = 7000 / 6 := by
  intro t ht
  rw [show RISK_RATED_STOCKS RiskLevel.low = ["JNJ", "PG", "KO", "O", "WMT", "COST"]
    from rfl] at ht
  fin_cases ht <;>
  · rw [allocGet_final]
    unfold level_contrib
    rw [h_stbA_low, h_stbA_med, h_rbA_low, h_rbA_med, h_rbA_high]
    norm_num [RISK_RATED_STOCKS]
    all_goals decide

theorem h_convA_mem (t : String) (pz : ℚ) (qz : ℤ)
    (ht : t ∈ RISK_RATED_STOCKS .low) (hp : pricesA t = some pz) (hpos : 0 < pz)
    (hle : pz ≤ 7000 / 6) (hq : qz = ⌊(7000 / 6 : ℚ) / pz⌋) (hqpos : 0 < qz) :
    (⟨t, qz⟩ : PortfolioEntry) ∈
      convert_allocations (final_budget_allocations 10000 .conservative [] []) pricesA := by
  have hget := h_getA t ht
  refine (mem_convert_iff (nodup_allocKeys_final _ _ _ _)).mpr ⟨?_, ?_⟩
  · rw [show (⟨t, qz⟩ : PortfolioEntry).ticker = t from rfl, mem_allocKeys_final]
    refine Or.inl ⟨by norm_num [risk_budget, BUDGET_ALLOCATIONS], ?_⟩
    rw [h_stbA_low]
    exact ht
  · rw [show (⟨t, qz⟩ : PortfolioEntry).ticker = t from rfl, hget, hq]
    exact convert_entry_some_of hp (ne_of_gt hpos) hle (hq ▸ hqpos)

theorem h_buildA : build_pool_filling_portfolio invA pricesA =
    convert_allocations (final_budget_allocations 10000 .conservative [] []) pricesA := by
  rw [build_eq, h_allocA, if_neg]
  have hmem := h_convA_mem "JNJ" 160 7 (by decide) rfl (by norm_num) (by norm_num)
    (by norm_num) (by norm_num)
  simpa [List.isEmpty_iff] using List.ne_nil_of_mem hmem

theorem h_buildA_JNJ : (⟨"JNJ", 7⟩ : PortfolioEntry) ∈
    build_pool_filling_portfolio invA pricesA := by
  rw [h_buildA]
  exact h_convA_mem "JNJ" 160 7 (by decide) rfl (by norm_num) (by norm_num)
    (by norm_num) (by norm_num)

/-! ### Claim C9: the worked example -/

/-- C9: on the input age 70, budget 10000, no interests, no avoid list, with
the stated prices, the profile is conservative, the tier budgets are
(7000, 3000, 0), the low pool falls back to all six low-tier stocks, every
low-tier stock is allocated 7000/6 dollars, and the floored share counts
appear in the portfolio — in particular JNJ gets 7 shares. -/
theorem worked_example_age70_budget10000 :
    get_risk_profile 70 10000 = .conservative ∧
    risk_budget 10000 .conservative .low = 7000 ∧
    risk_budget 10000 .conservative .medium = 3000 ∧
    risk_budget 10000 .conservative .high = 0 ∧
    stocks_to_buy (interest_tickers []) (final_avoid_tickers []) .low =
      RISK_RATED_STOCKS .low ∧
    allocGet (build_allocations invA) "JNJ" = 7000 / 6 ∧
    allocGet (build_allocations invA) "PG" = 7000 / 6 ∧
    allocGet (build_allocations invA) "KO" = 7000 / 6 ∧
    allocGet (build_allocations invA) "O" = 7000 / 6 ∧
    allocGet (build_allocations invA) "WMT" = 7000 / 6 ∧
    allocGet (build_allocations invA) "COST" = 7000 / 6 ∧
    (7 : ℤ) = ⌊(7000 / 6 : ℚ) / 160⌋ ∧
    (⟨"JNJ", 7⟩ : PortfolioEntry) ∈ build_pool_filling_portfolio invA pricesA ∧
    (⟨"PG", 7⟩ : PortfolioEntry) ∈ build_pool_filling_portfolio invA pricesA ∧
    (⟨"KO", 17⟩ : PortfolioEntry) ∈ build_pool_filling_portfolio invA pricesA ∧
    (⟨"O", 21⟩ : PortfolioEntry) ∈ build_pool_filling_portfolio invA pricesA ∧
    (⟨"WMT", 17⟩ : PortfolioEntry) ∈ build_pool_filling_portfolio invA pricesA ∧
    (⟨"COST", 1⟩ : PortfolioEntry) ∈ build_pool_filling_portfolio invA pricesA := by
  refine ⟨h_profileA, h_rbA_low, h_rbA_med, h_rbA_high, by decide,
    ?_, ?_, ?_, ?_, ?_, ?_, by norm_num, h_buildA_JNJ, ?_, ?_, ?_, ?_, ?_⟩
  · rw [h_allocA]; exact h_getA "JNJ" (by decide)
  · rw [h_allocA]; exact h_getA "PG" (by decide)
  · rw [h_allocA]; exact h_getA "KO" (by decide)
  · rw [h_allocA]; exact h_getA "O" (by decide)
  · rw [h_allocA]; exact h_getA "WMT" (by decide)
  · rw [h_allocA]; exact h_getA "COST" (by decide)
  · rw [h_buildA]
    exact h_convA_mem "PG" 150 7 (by decide) rfl (by norm_num) (by norm_num)
      (by norm_num) (by norm_num)
  · rw [h_buildA]
    exact h_convA_mem "KO" 65 17 (by decide) rfl (by norm_num) (by norm_num)
      (by norm_num) (by norm_num)
  · rw [h_buildA]
    exact h_convA_mem "O" 55 21 (by decide) rfl (by norm_num) (by norm_num)
      (by norm_num) (by norm_num)
  · rw [h_buildA]
    exact h_convA_mem "WMT" 66 17 (by decide) rfl (by norm_num) (by norm_num)
      (by norm_num) (by norm_num)
  · rw [h_buildA]
    exact h_convA_mem "COST" 750 1 (by decide) rfl (by norm_num) (by norm_num)
      (by norm_num) (by norm_num)

/-- Witness for C1 (amended): in the worked example the low tier's share
`7000 / 6` covers JNJ's price 160, and the portfolio is indeed non-empty. -/
theorem build_nonempty_of_affordable_candidate_witness :
    build_pool_filling_portfolio invA pricesA ≠ [] := by
  refine build_nonempty_of_affordable_candidate invA pricesA .low "JNJ" 160
    ?_ ?_ ?_ rfl (by norm_num) ?_
  · show (0 : ℚ) < 10000
    norm_num
  · show 0 < risk_budget 10000 (get_risk_profile 70 10000) .low
    rw [h_profileA, h_rbA_low]
    norm_num
  · show "JNJ" ∈ stocks_to_buy (interest_tickers []) (final_avoid_tickers []) .low
    decide
  · show (160 : ℚ) ≤ risk_budget 10000 (get_risk_profile 70 10000) .low /
      ((stocks_to_buy (interest_tickers []) (final_avoid_tickers []) .low).length : ℚ)
    rw [h_profileA, h_rbA_low, show (stocks_to_buy (interest_tickers [])
      (final_avoid_tickers []) .low).length = 6 from by decide]
    norm_num

/-- Witness for C6 at the worked example: the bought entry `JNJ` is not in
the (empty) resolved veto set. -/
theorem no_vetoed_ticker_in_portfolio_witness :
    (⟨"JNJ", 7⟩ : PortfolioEntry).ticker ∉
      final_avoid_tickers (invA.avoid_list.getD []) :=
  (no_vetoed_ticker_in_portfolio invA pricesA).1 _ h_buildA_JNJ

/-- Witness for C7 at the worked example: the bought entry `JNJ` has a
positive quantity. -/
theorem portfolio_nodup_and_positive_witness :
    0 < (⟨"JNJ", 7⟩ : PortfolioEntry).quantity :=
  (portfolio_nodup_and_positive invA pricesA).2 _ h_buildA_JNJ

/-! ### Concrete scenarios B and C: everything vetoed except JNJ -/

/-- An avoid list naming every stock of the universe except JNJ, COIN and
MSTR (none of the entries is a sector name, so each resolves to itself). -/
def avoidL : List String :=
  ["PG", "KO", "O", "WMT", "COST", "AAPL", "MSFT", "JPM", "BAC", "XOM",
   "CVX", "UNP", "FDX", "PFE", "PLD"]

theorem h_avoidL : final_avoid_tickers avoidL = avoidL := by decide

theorem h_stbL_low : stocks_to_buy [] avoidL .low = ["JNJ"] := by decide

theorem h_stbL_med : stocks_to_buy [] avoidL .medium = [] := by decide

theorem h_stbL_high : stocks_to_buy [] avoidL .high = ["COIN", "MSTR"] := by decide

theorem h_rb_cons_low (b : ℚ) : risk_budget b .conservative .low = b * (7 / 10) := rfl

theorem h_rb_cons_med (b : ℚ) : risk_budget b .conservative .medium = b * (3 / 10) := rfl

theorem h_rb_cons_high (b : ℚ) : risk_budget b .conservative .high = 0 := by
  simp [risk_budget, BUDGET_ALLOCATIONS]

theorem h_getBC (b : ℚ) (hb : 0 < b) :
    allocGet (final_budget_allocations b .conservative [] avoidL) "JNJ" =
      b * (7 / 10) := by
  rw [allocGet_final]
  unfold level_contrib
  rw [h_stbL_low, h_stbL_med, h_stbL_high, h_rb_cons_low, h_rb_cons_med, h_rb_cons_high]
  rw [if_pos ⟨mul_pos hb (by norm_num), by simp⟩, if_neg (by simp), if_neg (by simp)]
  simp

theorem h_keysBC (b : ℚ) (hb : 0 < b) (u : String) :
    u ∈ allocKeys (final_budget_allocations b .conservative [] avoidL) ↔
      u = "JNJ" := by
  rw [mem_allocKeys_final, h_stbL_low, h_stbL_med, h_stbL_high,
    h_rb_cons_low, h_rb_cons_med, h_rb_cons_high]
  constructor
  · rintro (⟨-, hu⟩ | ⟨-, hu⟩ | ⟨hrb, -⟩)
    · simpa using hu
    · simp at hu
    · norm_num at hrb
  · rintro rfl
    exact Or.inl ⟨mul_pos hb (by norm_num), by simp⟩

theorem h_convBC (b : ℚ) (hb : 0 < b) (pz : ℚ) (hlt : b * (7 / 10) < pz)
    (hpz : pz ≠ 0) :
    convert_allocations (final_budget_allocations b .conservative [] avoidL)
      (pricesOf [("JNJ", pz)]) = [] := by
  rw [convert_eq_nil_iff]
  intro p hp
  have hk : p.1 ∈ allocKeys (final_budget_allocations b .conservative [] avoidL) :=
    List.mem_map.mpr ⟨p, hp, rfl⟩
  have h1 : p.1 = "JNJ" := (h_keysBC b hb p.1).mp hk
  have h2 : p.2 = b * (7 / 10) := by
    have hg := allocGet_eq_of_mem (nodup_allocKeys_final _ _ _ _)
      (show (p.1, p.2) ∈ final_budget_allocations b .conservative [] avoidL by
        rw [Prod.mk.eta]; exact hp)
    rw [h1, h_getBC b hb] at hg
    exact hg.symm
  have hpq : p = ("JNJ", b * (7 / 10)) := by
    rw [← h1, ← h2, Prod.mk.eta]
  rw [hpq]
  unfold convert_entry
  rw [show pricesOf [("JNJ", pz)] ("JNJ", b * (7 / 10)).1 = some pz from rfl]
  dsimp only
  rw [if_neg hpz, if_neg (not_le.mpr hlt)]

/-- The C1 counterexample investor: budget 1, everything vetoed but JNJ. -/
def invB : InvestorData := ⟨some 70, some 1, some [], some avoidL⟩

theorem h_profileB : get_risk_profile 70 1 = .conservative := by
  unfold get_risk_profile
  rw [if_pos (Or.inl (by norm_num))]

theorem h_fbB : emergency_fallback avoidL (pricesOf [("JNJ", 160)]) 1 = [] := by
  rcases emergency_fallback_spec avoidL (pricesOf [("JNJ", 160)]) 1 with
    h | ⟨t, p, heq, hmem, hnc, hp, hp0, hple⟩
  · exact h
  · exfalso
    have ht : t = "JNJ" := by
      rw [show RISK_RATED_STOCKS RiskLevel.low =
        ["JNJ", "PG", "KO", "O", "WMT", "COST"] from rfl] at hmem
      fin_cases hmem
      · rfl
      all_goals (exfalso; revert hnc; decide)
    subst ht
    rw [show pricesOf [("JNJ", 160)] "JNJ" = some 160 from rfl] at hp
    injection hp with hp'
    rw [← hp'] at hple
    norm_num at hple

theorem h_allocB : build_allocations invB =
    final_budget_allocations 1 .conservative [] avoidL := by
  show final_budget_allocations 1 (get_risk_profile 70 1)
    (interest_tickers []) (final_avoid_tickers avoidL) = _
  rw [h_profileB, show interest_tickers [] = [] from rfl, h_avoidL]

theorem h_buildB : build_pool_filling_portfolio invB (pricesOf [("JNJ", 160)]) = [] := by
  rw [build_eq, h_allocB, h_convBC 1 (by norm_num) 160 (by norm_num) (by norm_num)]
  rw [if_pos (by simp)]
  show emergency_fallback (final_avoid_tickers avoidL) (pricesOf [("JNJ", 160)]) 1 = []
  rw [h_avoidL]
  exact h_fbB

/-- Counterexample to C1 as stated: `invB` has budget `1 > 0`, the low tier
receives the nonzero fraction `7/10`, the low-tier ticker `JNJ` has a known
price, yet the portfolio is empty (the tiny tier share cannot afford any
share, and the fallback cannot afford one either). -/
theorem nonempty_claim_counterexample :
    0 < invB.budget.getD 10000 ∧
    BUDGET_ALLOCATIONS
      (get_risk_profile (invB.age.getD 40) (invB.budget.getD 10000)) .low ≠ 0 ∧
    "JNJ" ∈ RISK_RATED_STOCKS .low ∧
    pricesOf [("JNJ", 160)] "JNJ" = some 160 ∧
    build_pool_filling_portfolio invB (pricesOf [("JNJ", 160)]) = [] := by
  refine ⟨?_, ?_, by decide, rfl, h_buildB⟩
  · show (0 : ℚ) < 1
    norm_num
  · show BUDGET_ALLOCATIONS (get_risk_profile 70 1) .low ≠ 0
    rw [h_profileB]
    norm_num [BUDGET_ALLOCATIONS]

/-- The C2 counterexample investor: budget 1000, everything vetoed but JNJ. -/
def invC : InvestorData := ⟨some 70, some 1000, some [], some avoidL⟩

theorem h_profileC : get_risk_profile 70 1000 = .conservative := by
  unfold get_risk_profile
  rw [if_pos (Or.inl (by norm_num))]

theorem h_allocC : build_allocations invC =
    final_budget_allocations 1000 .conservative [] avoidL := by
  show final_budget_allocations 1000 (get_risk_profile 70 1000)
    (interest_tickers []) (final_avoid_tickers avoidL) = _
  rw [h_profileC, show interest_tickers [] = [] from rfl, h_avoidL]

theorem h_fbC : emergency_fallback avoidL (pricesOf [("JNJ", 800)]) 1000 =
    [⟨"JNJ", 1⟩] := by
  unfold emergency_fallback
  rw [show RISK_RATED_STOCKS RiskLevel.low =
    "JNJ" :: ["PG", "KO", "O", "WMT", "COST"] from rfl]
  rw [List.find?_cons_of_pos]
  show (!(avoidL.contains "JNJ") &&
      (match pricesOf [("JNJ", 800)] "JNJ" with
       | some p => decide (p ≠ 0) && decide ((1000 : ℚ) ≥ p)
       | none => false)) = true
  rw [show pricesOf [("JNJ", 800)] "JNJ" = some (800 : ℚ) from rfl]
  dsimp only
  rw [show avoidL.contains "JNJ" = false from by decide]
  simp only [Bool.not_false, Bool.true_and, Bool.and_eq_true, decide_eq_true_eq]
  norm_num

theorem h_buildC : build_pool_filling_portfolio invC (pricesOf [("JNJ", 800)]) =
    [⟨"JNJ", 1⟩] := by
  rw [build_eq, h_allocC, h_convBC 1000 (by norm_num) 800 (by norm_num) (by norm_num)]
  rw [if_pos (by simp)]
  show emergency_fallback (final_avoid_tickers avoidL) (pricesOf [("JNJ", 800)]) 1000 =
    [⟨"JNJ", 1⟩]
  rw [h_avoidL]
  exact h_fbC

/-! ### Claim C2: spending bound -/

/-- C2 (amended): every entry produced by the share-conversion step spends
at most its ticker's accumulated allocation; the emergency-fallback
purchase, made only when the conversion step buys nothing, is exempt. -/
theorem conversion_spend_within_allocation (inv : InvestorData)
    (prices : String → Option ℚ) (e : PortfolioEntry) (p : ℚ)
    (he : e ∈ convert_allocations (build_allocations inv) prices)
    (hp : prices e.ticker = some p) :
    (e.quantity : ℚ) * p ≤ allocGet (build_allocations inv) e.ticker := by
  have hnd : (allocKeys (build_allocations inv)).Nodup := nodup_allocKeys_final _ _ _ _
  rcases (mem_convert_iff hnd).mp he with ⟨-, hconv⟩
  obtain ⟨price, hprice, h0, hge, hq, he'⟩ := convert_entry_some_spec hconv
  have hpp : p = price := by
    rw [show ((e.ticker, allocGet (build_allocations inv) e.ticker).1 : String) =
      e.ticker from rfl, hp] at hprice
    exact (Option.some.inj hprice)
  have hnn : 0 ≤ allocGet (build_allocations inv) e.ticker :=
    allocGet_final_nonneg _ _ _ _ _
  have hppos : 0 < price := by
    rcases lt_trichotomy price 0 with hlt | heq0 | hgt
    · exfalso
      have hq' : 0 < ⌊allocGet (build_allocations inv) e.ticker / price⌋ := hq
      have hdiv : allocGet (build_allocations inv) e.ticker / price ≤ 0 :=
        div_nonpos_of_nonneg_of_nonpos hnn hlt.le
      have hfl : ⌊allocGet (build_allocations inv) e.ticker / price⌋ ≤ 0 :=
        Int.floor_nonpos hdiv
      omega
    · exact absurd heq0 h0
    · exact hgt
  have hqty : e.quantity = ⌊allocGet (build_allocations inv) e.ticker / price⌋ := by
    have := congrArg PortfolioEntry.quantity he'
    simpa using this
  rw [hqty, hpp]
  calc (⌊allocGet (build_allocations inv) e.ticker / price⌋ : ℚ) * price
      ≤ (allocGet (build_allocations inv) e.ticker / price) * price := by
        have := Int.floor_le (allocGet (build_allocations inv) e.ticker / price)
        exact mul_le_mul_of_nonneg_right this hppos.le
    _ = allocGet (build_allocations inv) e.ticker :=
        div_mul_cancel₀ _ (ne_of_gt hppos)

/-- Witness for C2 (amended) at the worked example: the conversion entry
`JNJ × 7` at price 160 spends `1120 ≤ 7000/6`. -/
theorem conversion_spend_within_allocation_witness :
    ((7 : ℤ) : ℚ) * 160 ≤ allocGet (build_allocations invA) "JNJ" := by
  have he : (⟨"JNJ", 7⟩ : PortfolioEntry) ∈
      convert_allocations (build_allocations invA) pricesA := by
    rw [h_allocA]
    exact h_convA_mem "JNJ" 160 7 (by decide) rfl (by norm_num) (by norm_num)
      (by norm_num) (by norm_num)
  exact conversion_spend_within_allocation invA pricesA ⟨"JNJ", 7⟩ 160 he rfl

/-- Counterexample to C2 as stated: on `invC` the conversion step buys
nothing and the emergency fallback buys one JNJ share at price 800, while
JNJ's accumulated allocation is only 700 — the entry spends more than its
allocation. -/
theorem spend_within_allocation_counterexample :
    build_pool_filling_portfolio invC (pricesOf [("JNJ", 800)]) = [⟨"JNJ", 1⟩] ∧
    pricesOf [("JNJ", 800)] "JNJ" = some 800 ∧
    allocGet (build_allocations invC) "JNJ" = 700 ∧
    ¬ (((1 : ℤ) : ℚ) * 800 ≤ allocGet (build_allocations invC) "JNJ") := by
  have hg : allocGet (build_allocations invC) "JNJ" = 700 := by
    rw [h_allocC, h_getBC 1000 (by norm_num)]
    norm_num
  refine ⟨h_buildC, rfl, hg, ?_⟩
  rw [hg]
  norm_num

end Prism
